import Mathlib

/-!
Verification development for the codex-orchestrator scheduling core.

The Python sources under `app/` are embedded shallowly:
pure functions become Lean functions, file/registry state becomes explicit
state records, and the relevant Python string operations (`lower`, `strip`,
`in`, `int(...)`, lexicographic comparison, `str(...)`) are modelled over
explicit character lists so that everything reduces inside the kernel.
Python string semantics are matched on the ASCII range, which covers every
string literal the embedded code compares against.
-/

namespace Orchestrator

/-! Python string primitives. -/

/-- Characters stripped by Python `str.strip()` (ASCII whitespace). -/
def isSpaceChar (c : Char) : Bool :=
  c == ' ' || c == '\t' || c == '\n' || c == '\r' || c == '\x0b' || c == '\x0c'

/-- ASCII lower-casing of one character, as Python `str.lower` does on ASCII. -/
def lowerChar (c : Char) : Char :=
  if 65 ≤ c.toNat ∧ c.toNat ≤ 90 then Char.ofNat (c.toNat + 32) else c

/-- ASCII upper-casing of one character, as Python `str.upper` does on ASCII. -/
def upperChar (c : Char) : Char :=
  if 97 ≤ c.toNat ∧ c.toNat ≤ 122 then Char.ofNat (c.toNat - 32) else c

/-- Python `s.lower()`. -/
def pyLower (s : String) : String := ⟨s.data.map lowerChar⟩

/-- Python `s.upper()`. -/
def pyUpper (s : String) : String := ⟨s.data.map upperChar⟩

/-- Python `s.strip()`. -/
def pyTrim (s : String) : String :=
  ⟨((s.data.dropWhile isSpaceChar).reverse.dropWhile isSpaceChar).reverse⟩

/-- Python lexicographic `<=` on strings, compared by code point. -/
def charsLe : List Char → List Char → Bool
  | [], _ => true
  | _ :: _, [] => false
  | a :: as, b :: bs =>
    if a.toNat < b.toNat then true
    else if b.toNat < a.toNat then false
    else charsLe as bs

/-- Python `s <= t` on strings. -/
def pyStrLe (s t : String) : Bool := charsLe s.data t.data

/-- Membership of `pat` as a contiguous substring, as Python `pat in hay`. -/
def containsChars (pat : List Char) : List Char → Bool
  | [] => pat.isEmpty
  | c :: rest => pat.isPrefixOf (c :: rest) || containsChars pat rest

/-- Python `pat in hay` for strings. -/
def pyInStr (pat hay : String) : Bool := containsChars pat.data hay.data

/-- Decimal digit value of a character, if it is a digit. -/
def digitVal? (c : Char) : Option Nat :=
  if 48 ≤ c.toNat ∧ c.toNat ≤ 57 then some (c.toNat - 48) else none

/-- Accumulating decimal parse; fails on the first non-digit. -/
def parseDigitsAux : Nat → List Char → Option Nat
  | acc, [] => some acc
  | acc, c :: cs =>
    match digitVal? c with
    | some d => parseDigitsAux (acc * 10 + d) cs
    | none => none

/-- Parse a nonempty all-digit character list as a natural number. -/
def parseDigits (l : List Char) : Option Nat :=
  if l.isEmpty then none else parseDigitsAux 0 l

/-- Sign-then-digits integer syntax over characters. -/
def pyToIntChars : List Char → Option Int
  | [] => none
  | c :: rest =>
    if c = '-' then (parseDigits rest).map (fun n => -(n : Int))
    else if c = '+' then (parseDigits rest).map (fun n => (n : Int))
    else (parseDigits (c :: rest)).map (fun n => (n : Int))

/-- Python `int(s)`: strip whitespace, optional sign, then decimal digits.
(Python additionally accepts digit-group underscores; no string the embedded
code produces contains one.) -/
def pyToInt? (s : String) : Option Int := pyToIntChars (pyTrim s).data

/-! Front-matter values.  The task front-matter parser in `app/scan.py`
produces exactly flat string values, integer values, and lists of strings,
plus Python `None` for the defaulted `order` field; `Value` is that domain. -/

inductive Value where
  | vNone : Value
  | vStr : String → Value
  | vInt : Int → Value
  | vList : List String → Value
deriving DecidableEq

/-- Python `repr` of a string: the text between single quotes
(escaping of interior quotes is not modelled; no embedded claim needs it). -/
def pyReprStr (s : String) : String :=
  ⟨Char.ofNat 39 :: (s.data ++ [Char.ofNat 39])⟩

/-- Python `str(v)` on a front-matter value. -/
def pyStr (v : Value) : String :=
  match v with
  | .vNone => "None"
  | .vStr s => s
  | .vInt n => toString n
  | .vList l => "[" ++ String.intercalate ", " (l.map pyReprStr) ++ "]"

/-- Python truthiness of a front-matter value. -/
def pyTruthy (v : Value) : Bool :=
  match v with
  | .vNone => false
  | .vStr s => !(s == "")
  | .vInt n => !(n == 0)
  | .vList l => !l.isEmpty

/-- Python `int(v)` coercion on a front-matter value
(raises, i.e. `none`, on `None` and on lists). -/
def pyIntOf (v : Value) : Option Int :=
  match v with
  | .vInt n => some n
  | .vStr s => pyToInt? s
  | _ => none

/-! The task record.  `parse_task_file` returns a Python dict holding the
parsed front-matter fields plus the body and path; the scheduling core reads
exactly the six fields below (body and path never influence scheduling, so
they are not carried).  `none` models an absent key, `some v` a present one
(`some .vNone` is a key present with value `None`). -/

structure TaskRecord where
  id : Option Value
  title : Option Value
  status : Option Value
  priority : Option Value
  depends_on : Option Value
  order : Option Value
deriving DecidableEq

/-- Python `dict.get(key, default)`. -/
def pyGetD (v : Option Value) (d : Value) : Value := v.getD d

/-! Embedding of `app/scan.py`. -/

/-- The task id as the eligibility scan reads it:
`str(t.get("id", "")).strip()`. -/
def taskId (t : TaskRecord) : String := pyTrim (pyStr (pyGetD t.id (.vStr "")))

/-- The task status as the eligibility scan reads it:
`str(t.get("status", "")).lower()`. -/
def statusLower (t : TaskRecord) : String := pyLower (pyStr (pyGetD t.status (.vStr "")))

/-- Dependency statuses that satisfy a dependency edge (`scan.py`, `deps_satisfied`). -/
def doneStatuses : List String := ["done", "merged", "completed", "closed"]

/-- The id-keyed lookup built by `build_task_graph`: tasks with a nonempty
stripped id, later records overwriting earlier ones holding the same id. -/
def lookupTask (tasks : List TaskRecord) (depId : String) : Option TaskRecord :=
  (tasks.filter (fun u => !(taskId u == "") && taskId u == depId)).getLast?

/-- The dependency entries of a record as `deps_satisfied` sees them:
`deps = task.get("depends_on") or []`, then a non-list value short-circuits
the whole check to satisfied (`none` here); otherwise the string entries. -/
def depEntries (t : TaskRecord) : Option (List String) :=
  match pyGetD t.depends_on .vNone with
  | .vList l => some l
  | v => if pyTruthy v then none else some []

/-- `deps_satisfied` from `list_eligible`: every nonblank dependency id must
resolve in the lookup to a record whose lowered status is a done-status. -/
def deps_satisfied (tasks : List TaskRecord) (t : TaskRecord) : Bool :=
  match depEntries t with
  | none => true
  | some deps =>
    deps.all (fun dep =>
      let depId := pyTrim dep
      if depId == "" then true
      else
        match lookupTask tasks depId with
        | none => false
        | some u => doneStatuses.contains (statusLower u))

/-- The per-record test of the `list_eligible` loop, in the order the Python
code applies its `continue` guards (status, id, open titles, branches, deps). -/
def eligPred (tasks : List TaskRecord) (open_pr_titles existing_branches : List String)
    (t : TaskRecord) : Bool :=
  if !(statusLower t == "queued") then false
  else if taskId t == "" then false
  else if open_pr_titles.any (fun title => pyInStr (taskId t) title) then false
  else if existing_branches.any (fun b =>
      b == "feature/" ++ taskId t ||
      ("feature/" ++ taskId t ++ "-").data.isPrefixOf b.data) then false
  else deps_satisfied tasks t

/-- The order-field normalisation `list_eligible` applies to each record it
returns: a present non-`None` order is coerced with `int(...)` (falling back
to `None` on failure), and an absent or `None` order is set to `None`. -/
def normalizeOrder (t : TaskRecord) : TaskRecord :=
  match t.order with
  | some v =>
    if v = .vNone then { t with order := some .vNone }
    else
      match pyIntOf v with
      | some n => { t with order := some (.vInt n) }
      | none => { t with order := some .vNone }
  | none => { t with order := some .vNone }

/-- `list_eligible(tasks, open_pr_titles, repo_helper)` with the branch set the
repo helper reports passed explicitly.  The Python loop is filter-then-map:
only the `order` field of kept records is mutated, and no guard reads `order`,
so the per-record guards see the same data the loop does. -/
def list_eligible (tasks : List TaskRecord) (open_pr_titles existing_branches : List String) :
    List TaskRecord :=
  (tasks.filter (eligPred tasks open_pr_titles existing_branches)).map normalizeOrder

/-- Priority rank from `order_tasks`: `prio_rank.get(str(t.get("priority", "P3")).upper(), 99)`. -/
def prioRank (t : TaskRecord) : Nat :=
  let pr := pyUpper (pyStr (pyGetD t.priority (.vStr "P3")))
  if pr == "P0" then 0
  else if pr == "P1" then 1
  else if pr == "P2" then 2
  else if pr == "P3" then 3
  else 99

/-- The numeric order hint as `order_tasks` reads it:
`t.get("order")` if it is an `int`, else `None`. -/
def hintOf (t : TaskRecord) : Option Int :=
  match t.order with
  | some (.vInt n) => some n
  | _ => none

/-- The id tie-break key from `order_tasks`: `str(t.get("id", "ZZZZ"))`. -/
def keyId (t : TaskRecord) : String := pyStr (pyGetD t.id (.vStr "ZZZZ"))

/-- The sort key of `order_tasks`:
`(pr_rank, ord_rank is None, ord_rank or 0, tid)`, with the Python boolean
mapped to `0`/`1` (Python orders `False < True`). -/
def taskKey (t : TaskRecord) : Nat × Nat × Int × String :=
  (prioRank t, if (hintOf t).isNone then 1 else 0, (hintOf t).getD 0, keyId t)

/-- Python's lexicographic comparison of the 4-tuple sort keys. -/
def keyLe : Nat × Nat × Int × String → Nat × Nat × Int × String → Bool
  | (p₁, h₁, o₁, i₁), (p₂, h₂, o₂, i₂) =>
    if p₁ < p₂ then true
    else if p₂ < p₁ then false
    else if h₁ < h₂ then true
    else if h₂ < h₁ then false
    else if o₁ < o₂ then true
    else if o₂ < o₁ then false
    else pyStrLe i₁ i₂

/-- The total preorder `order_tasks` sorts by. -/
def taskLe (t u : TaskRecord) : Prop := keyLe (taskKey t) (taskKey u) = true

instance : DecidableRel taskLe := fun t u =>
  inferInstanceAs (Decidable (keyLe (taskKey t) (taskKey u) = true))

/-- `order_tasks(eligible)`.  Python's `sorted` is a stable sort on the tuple
key; `List.insertionSort` with the same total preorder is stable (it inserts
each earlier element before later key-equal ones), and any two stable sorts
by the same preorder agree, so this is extensionally `sorted(eligible, key=key)`. -/
def order_tasks (eligible : List TaskRecord) : List TaskRecord :=
  List.insertionSort taskLe eligible

/-- `parse_task_file` after front-matter extraction: the parsed field dict
with the four scheduling defaults applied via `setdefault`. -/
def parse_task_file (fm : List (String × Value)) : TaskRecord :=
  { id := fm.lookup "id"
    title := fm.lookup "title"
    status := some ((fm.lookup "status").getD (.vStr "queued"))
    priority := some ((fm.lookup "priority").getD (.vStr "P2"))
    depends_on := some ((fm.lookup "depends_on").getD (.vList []))
    order := some ((fm.lookup "order").getD .vNone) }

/-! Embedding of `app/locks.py`.  The lock marker for one repo id is the
content of `<workdir>/state/locks/<id>.lock` when that file exists (`some`),
and `none` when it does not; the caller identity is the process id. -/

/-- The marker content `acquire` writes: `str(os.getpid())`. -/
def lockMarker (pid : Nat) : String := toString pid

/-- `acquire(repo_id, workdir, timeout=0)`: `O_CREAT|O_EXCL` fails iff the
marker already exists; on success the caller's pid is recorded.  Returns the
result and the marker state after the call. -/
def acquire (st : Option String) (pid : Nat) : Bool × Option String :=
  match st with
  | some _ => (false, st)
  | none => (true, some (lockMarker pid))

/-- The owner pid `release` recovers from the marker:
`int(content.strip())` when that parses, else `None`. -/
def ownerPid (content : String) : Option Int :=
  pyToInt? (pyTrim content)

/-- `release(repo_id, workdir)`: missing marker is a no-op; an existing marker
is removed when the recorded pid is unparsable (`owner_pid is None`) or equals
the caller's pid, and kept otherwise. -/
def release (st : Option String) (pid : Nat) : Option String :=
  match st with
  | none => none
  | some content =>
    match ownerPid content with
    | none => none
    | some p => if p = (pid : Int) then none else st

/-! Embedding of `app/registry.py` id derivation and the webhook routing
of `app/main.py`. -/

/-- `RepoContext.derive_id(owner, repo)`. -/
def derive_id (owner repo : String) : String := owner ++ "_" ++ repo

/-- Split a character list at its first slash, as `full_name.split("/", 1)`. -/
def splitFirstSlash : List Char → Option (List Char × List Char)
  | [] => none
  | c :: cs =>
    if c = '/' then some ([], cs)
    else (splitFirstSlash cs).map (fun p => (c :: p.1, p.2))

/-- The repo id the webhook handler derives from `repository.full_name`:
`f"{owner}_{repo_name}"` after splitting at the first slash, and `""` when
the name holds no slash. -/
def webhookRepoId (full_name : String) : String :=
  match splitFirstSlash full_name.data with
  | some (owner, rest) => String.mk (owner ++ '_' :: rest)
  | none => ""

/-- Operating modes from `app/registry.py` (`RepoMode`). -/
inductive RepoMode where
  | observe : RepoMode
  | pr : RepoMode
  | disabled : RepoMode
deriving DecidableEq

/-! Embedding of `app/poller.py`. -/

/-- Modelled from the spec: the polling configuration (`min_remaining_budget`,
`poll_interval_active`, `poll_interval_idle`) that `compute_next_interval`
reads from `Settings`.  The `Settings` model in the provided `app/config.py`
snapshot does not declare these fields even though `app/poller.py` reads
them; the spec describes them as a configured floor and the normal
active/idle intervals, so they are carried here as explicit configuration. -/
structure PollSettings where
  min_remaining_budget : Int
  poll_interval_active : Int
  poll_interval_idle : Int

/-- `compute_next_interval(remaining, reset_epoch, active)`: below the
configured remaining-budget floor the interval becomes
`max(600, min(900, reset_epoch - now))` when the reset epoch is truthy and in
the future and `600` otherwise, overriding the active/idle choice. -/
def compute_next_interval (settings : PollSettings) (now : Int)
    (remaining : Option Int) (reset_epoch : Option Int) (active : Bool) : Int :=
  match remaining with
  | some r =>
    if r < settings.min_remaining_budget then
      match reset_epoch with
      | some re => if re ≠ 0 ∧ now < re then max 600 (min 900 (re - now)) else 600
      | none => 600
    else if active then settings.poll_interval_active else settings.poll_interval_idle
  | none =>
    if active then settings.poll_interval_active else settings.poll_interval_idle

/-- The head data of one open pull request as the poller reads it. -/
structure OpenPR where
  ref : String
  sha : String
deriving DecidableEq

/-- One closed pull request as the poller reads it. -/
structure ClosedPR where
  merged_at : Option String
deriving DecidableEq

/-- One conditional GET answer: HTTP status, `ETag` header, JSON payload. -/
structure RemoteResp (α : Type) where
  status : Nat
  etag : Option String
  payload : List α

/-- The per-repo persisted poll state (`state/etags/<id>.json`). -/
structure PollState where
  reviewed_heads : List String
  open_etag : Option String
  closed_etag : Option String
  last_seen_merged_at : Option String
  cycle : Nat
deriving DecidableEq

/-- What one poll dispatched: reviewed head shas and integrated merge stamps,
each in dispatch order, plus whether a transport error was reported. -/
structure PollOutcome where
  reviewed : List String
  integrated : List String
  errored : Bool
deriving DecidableEq

/-- Python truthiness of an optional string. -/
def pyTruthyStr (s : Option String) : Bool :=
  match s with
  | none => false
  | some v => !(v == "")

/-- `save_etag`: the bucket's `etag` entry is overwritten only by a truthy
header value, so a missing or empty `ETag` keeps the stored validator. -/
def saveEtag (old : Option String) (e : Option String) : Option String :=
  match e with
  | some v => if !(v == "") then some v else old
  | none => old

/-- The head shas the open-PR loop dispatches and marks: nonempty and not in
the stored reviewed set (the set snapshot is not extended during the loop). -/
def openMarks (seen : List String) (prs : List OpenPR) : List String :=
  prs.filterMap (fun pr =>
    if !(pr.sha == "") && !(seen.contains pr.sha) then some pr.sha else none)

/-- `_update_reviewed_heads`: the stored list and the new marks are thrown
into a Python `set`, listed back out in the set's iteration order, and only
the last 200 entries of that listing are kept.  The iteration order of a hash
set is not insertion order; it is supplied here as `σ`, constrained in the
theorems to enumerate each distinct element exactly once. -/
def updateReviewedHeads (σ : List String → List String) (old marks : List String) :
    List String :=
  let e := σ (old ++ marks)
  e.drop (e.length - 200)

/-- The merge stamps the closed-PR loop dispatches: truthy `merged_at` not at
or below the stored watermark (all compared while the watermark is unchanged). -/
def newMerges (last : Option String) (prs : List ClosedPR) : List String :=
  prs.filterMap (fun pr =>
    match pr.merged_at with
    | none => none
    | some m =>
      if m == "" then none
      else if pyTruthyStr last && pyStrLe m (last.getD "") then none
      else some m)

/-- The `max_seen` fold of the closed-PR loop over the dispatched stamps. -/
def advanceWatermark (last : Option String) (ms : List String) : Option String :=
  ms.foldl
    (fun acc m =>
      match acc with
      | none => some m
      | some a => if !(pyStrLe m a) then some m else acc)
    last

/-- `_set_last_merged_seen` is called only when `max_seen` is truthy. -/
def setWatermark (stored maxSeen : Option String) : Option String :=
  if pyTruthyStr maxSeen then maxSeen else stored

/-- The closed-collection phase of `poll_repo`: the cycle counter advances
every poll that reaches it, and the closed collection is fetched only on
cycle 0. -/
def pollClosedPhase (s : PollState) (marks : List String)
    (closedResp : RemoteResp ClosedPR) : PollState × PollOutcome :=
  let cyc := s.cycle
  let s₂ := { s with cycle := (cyc + 1) % 3 }
  if cyc = 0 then
    if closedResp.status = 200 then
      let ms := newMerges s.last_seen_merged_at closedResp.payload
      let s₃ :=
        { s₂ with
          closed_etag := saveEtag s.closed_etag closedResp.etag
          last_seen_merged_at :=
            setWatermark s.last_seen_merged_at
              (advanceWatermark s.last_seen_merged_at ms) }
      (s₃, { reviewed := marks, integrated := ms, errored := false })
    else if closedResp.status = 304 then
      (s₂, { reviewed := marks, integrated := [], errored := false })
    else
      (s₂, { reviewed := marks, integrated := [], errored := true })
  else
    (s₂, { reviewed := marks, integrated := [], errored := false })

/-- `poll_repo` for one repository and one polling round, taking the two
conditional GET answers as input.  A non-200, non-304 answer on the open
collection returns early: no review, no cycle advance, no closed fetch. -/
def poll_repo (σ : List String → List String) (s : PollState)
    (openResp : RemoteResp OpenPR) (closedResp : RemoteResp ClosedPR) :
    PollState × PollOutcome :=
  if openResp.status = 200 then
    let marks := openMarks s.reviewed_heads openResp.payload
    let s₁ :=
      { s with
        open_etag := saveEtag s.open_etag openResp.etag
        reviewed_heads :=
          if marks.isEmpty then s.reviewed_heads
          else updateReviewedHeads σ s.reviewed_heads marks }
    pollClosedPhase s₁ marks closedResp
  else if openResp.status = 304 then
    pollClosedPhase s [] closedResp
  else
    (s, { reviewed := [], integrated := [], errored := true })

/-! Embedding of the `work-next` endpoint of `app/main.py`. -/

/-- The side-effecting worker actions `Developer.work_task` can perform. -/
inductive WorkerAction where
  | createBranch (name : String)
  | writeFile (path : String)
  | commitAll (message : String)
  | pushBranch (name : String)
  | openPR (head base title : String)
deriving DecidableEq

/-- The `{ok, branch, pr_url}` result dict of `Developer.work_task`. -/
structure DevResult where
  ok : Bool
  branch : String
  pr_url : String
deriving DecidableEq

/-- The responses `work_next_endpoint` can produce once the repo resolved. -/
inductive WorkNextResponse where
  | observeReport (next : Option (Value × Value))
  | busy
  | noContent
  | devFailed
  | dispatched (task : Value) (branch : String) (pr_url : String)
deriving DecidableEq

/-- `scan_repo`'s `next_task` entry: head of the ordered eligible list,
reduced to its raw `id` and `title` values (`dict.get`, `None` default). -/
def nextTaskMin (tasks : List TaskRecord) (titles branches : List String) :
    Option (Value × Value) :=
  (order_tasks (list_eligible tasks titles branches)).head?.map
    (fun t => (pyGetD t.id .vNone, pyGetD t.title .vNone))

/-- `work_next_endpoint` after the repo context resolved, with the worker
executor passed as the collaborator `dev` together with the action trace it
would perform.  Observe mode answers from the scan alone; any other mode
takes the lock, re-finds the chosen task by raw id and hands it to `dev`. -/
def work_next (mode : RepoMode) (tasks : List TaskRecord) (titles branches : List String)
    (lockFree : Bool) (dev : TaskRecord → DevResult × List WorkerAction) :
    WorkNextResponse × List WorkerAction :=
  match mode with
  | .observe => (.observeReport (nextTaskMin tasks titles branches), [])
  | _ =>
    if !lockFree then (.busy, [])
    else
      match nextTaskMin tasks titles branches with
      | none => (.noContent, [])
      | some nt =>
        match tasks.find? (fun t => pyGetD t.id .vNone == nt.1) with
        | none => (.noContent, [])
        | some task_full =>
          let res := dev task_full
          if !res.1.ok then (.devFailed, res.2)
          else (.dispatched nt.1 res.1.branch res.1.pr_url, res.2)

/-! Claims. -/

/-- Claim C10: the derived repository id `owner_name` is not injective —
`("a", "b_c")` and `("a_b", "c")` are distinct pairs deriving the same id,
and webhook routing (which rebuilds the id from `repository.full_name` by
replacing the first slash with an underscore) sends both full names to that
one id, conflating the two repositories. -/
theorem c10_derive_id_not_injective :
    derive_id "a" "b_c" = derive_id "a_b" "c" ∧
    ("a", "b_c") ≠ (("a_b", "c") : String × String) ∧
    webhookRepoId "a/b_c" = derive_id "a" "b_c" ∧
    webhookRepoId "a_b/c" = derive_id "a_b" "c" :=
  ⟨by decide, by decide, by decide, by decide⟩

/-- Claim C5: when the reported remaining budget is below the configured
floor, `compute_next_interval` returns a backoff anchored on the reset epoch
and clamped to `[600, 900]`, and the result does not depend on the active
flag or on the configured active/idle intervals. -/
theorem c5_backoff_clamped (settings : PollSettings) (now r : Int)
    (reset_epoch : Option Int) (active : Bool)
    (h : r < settings.min_remaining_budget) :
    600 ≤ compute_next_interval settings now (some r) reset_epoch active ∧
    compute_next_interval settings now (some r) reset_epoch active ≤ 900 ∧
    ∀ (active₂ : Bool) (s₂ : PollSettings),
      s₂.min_remaining_budget = settings.min_remaining_budget →
      compute_next_interval s₂ now (some r) reset_epoch active₂ =
        compute_next_interval settings now (some r) reset_epoch active := by
  unfold compute_next_interval
  refine ⟨?_, ?_, ?_⟩
  · cases reset_epoch with
    | none => simp [h]
    | some re => simp only [if_pos h]; split <;> omega
  · cases reset_epoch with
    | none => simp [h]
    | some re => simp only [if_pos h]; split <;> omega
  · intro active₂ s₂ hs
    cases reset_epoch with
    | none => simp [h, hs ▸ h]
    | some re => simp [h, hs ▸ h]

/-- Witness for C5 at the spec's Scenario C: remaining 50, floor 200, reset
300 seconds ahead of `now = 1000`; the computed interval lies in `[600, 900]`
(indeed it is 600) and ignores the active/idle intervals. -/
theorem c5_backoff_witness :
    (50 : Int) < (PollSettings.mk 200 60 300).min_remaining_budget ∧
    600 ≤ compute_next_interval (PollSettings.mk 200 60 300) 1000 (some 50) (some 1300) true ∧
    compute_next_interval (PollSettings.mk 200 60 300) 1000 (some 50) (some 1300) true ≤ 900 :=
  ⟨by decide,
   (c5_backoff_clamped (PollSettings.mk 200 60 300) 1000 50 (some 1300) true (by decide)).1,
   (c5_backoff_clamped (PollSettings.mk 200 60 300) 1000 50 (some 1300) true (by decide)).2.1⟩

/-- Claim C7: with the repository in observe mode, a work-next request
answers with the computed next eligible task (the head of the ordered
eligible list) and performs no worker action at all: the action trace is
empty, so nothing is committed, no branch is pushed and no change request is
opened, whatever the worker executor would do. -/
theorem c7_observe_mode_no_worker_actions (tasks : List TaskRecord)
    (titles branches : List String) (lockFree : Bool)
    (dev : TaskRecord → DevResult × List WorkerAction) :
    (work_next .observe tasks titles branches lockFree dev).2 = [] ∧
    (work_next .observe tasks titles branches lockFree dev).1 =
      .observeReport ((order_tasks (list_eligible tasks titles branches)).head?.map
        (fun t => (pyGetD t.id .vNone, pyGetD t.title .vNone))) :=
  ⟨rfl, rfl⟩

/-- Claim C9: a task file whose front matter omits `status` parses to a
record with status `"queued"` (and, with the other fields likewise omitted,
priority `"P2"`, no dependencies and no order hint), and such a record passes
the queued-status eligibility rule: alone, with no open titles and no
branches, it is returned eligible whenever its stripped id is nonempty. -/
theorem c9_omitted_status_defaults_queued (fm : List (String × Value))
    (hs : fm.lookup "status" = none) (hp : fm.lookup "priority" = none)
    (hd : fm.lookup "depends_on" = none) (ho : fm.lookup "order" = none) :
    (parse_task_file fm).status = some (.vStr "queued") ∧
    (parse_task_file fm).priority = some (.vStr "P2") ∧
    (parse_task_file fm).depends_on = some (.vList []) ∧
    (parse_task_file fm).order = some .vNone ∧
    statusLower (parse_task_file fm) = "queued" ∧
    (taskId (parse_task_file fm) ≠ "" →
      list_eligible [parse_task_file fm] [] [] = [parse_task_file fm]) := by
  have hstat : (parse_task_file fm).status = some (.vStr "queued") := by
    simp [parse_task_file, hs]
  have hlow : statusLower (parse_task_file fm) = "queued" := by
    rw [statusLower, hstat]; decide
  refine ⟨hstat, by simp [parse_task_file, hp], by simp [parse_task_file, hd],
    by simp [parse_task_file, ho], hlow, ?_⟩
  intro hid
  have hdep : deps_satisfied [parse_task_file fm] (parse_task_file fm) = true := by
    rw [deps_satisfied, depEntries]
    simp [parse_task_file, hd, pyGetD]
  have hpred : eligPred [parse_task_file fm] [] [] (parse_task_file fm) = true := by
    rw [eligPred]
    simp [hlow, hid, hdep]
  have hnorm : normalizeOrder (parse_task_file fm) = parse_task_file fm := by
    rw [normalizeOrder]
    simp [parse_task_file, ho]
  rw [list_eligible]
  simp [hpred, hnorm]

/-! Decimal round trip: the marker written by `acquire` (`str(os.getpid())`)
parses back to the caller's pid.  `toString (n : Nat)` is `Nat.repr`, built
from `Nat.toDigitsCore`; the lemmas below walk that construction. -/

/-- Parsing one rendered decimal digit. -/
theorem digitVal?_digitChar (d : Nat) (h : d < 10) :
    digitVal? (Nat.digitChar d) = some d := by
  interval_cases d <;> decide

/-- Rendered decimal digits are not whitespace. -/
theorem digitChar_not_space (d : Nat) (h : d < 10) :
    isSpaceChar (Nat.digitChar d) = false := by
  interval_cases d <;> decide

/-- Rendered decimal digits are not sign characters. -/
theorem digitChar_not_sign (d : Nat) (h : d < 10) :
    Nat.digitChar d ≠ '-' ∧ Nat.digitChar d ≠ '+' := by
  interval_cases d <;> decide

/-- `Nat.toDigitsCore` only ever prepends to its accumulator. -/
theorem toDigitsCore_append (fuel : Nat) :
    ∀ (n : Nat) (acc : List Char),
      Nat.toDigitsCore 10 fuel n acc = Nat.toDigitsCore 10 fuel n [] ++ acc := by
  induction fuel with
  | zero => intro n acc; simp [Nat.toDigitsCore]
  | succ f ih =>
    intro n acc
    rw [Nat.toDigitsCore, Nat.toDigitsCore]
    by_cases h : n / 10 = 0
    · simp [h]
    · simp only [if_neg h]
      rw [ih (n / 10) (Nat.digitChar (n % 10) :: acc), ih (n / 10) [Nat.digitChar (n % 10)]]
      simp

/-- Every character `Nat.toDigitsCore` emits is a rendered decimal digit. -/
theorem toDigitsCore_chars (fuel : Nat) :
    ∀ (n : Nat) (acc : List Char),
      (∀ c ∈ acc, ∃ d, d < 10 ∧ c = Nat.digitChar d) →
      ∀ c ∈ Nat.toDigitsCore 10 fuel n acc, ∃ d, d < 10 ∧ c = Nat.digitChar d := by
  induction fuel with
  | zero => intro n acc hacc; simpa [Nat.toDigitsCore] using hacc
  | succ f ih =>
    intro n acc hacc c hc
    rw [Nat.toDigitsCore] at hc
    by_cases h : n / 10 = 0
    · simp only [if_pos h, List.mem_cons] at hc
      rcases hc with hc | hc
      · exact ⟨n % 10, Nat.mod_lt _ (by norm_num), hc⟩
      · exact hacc c hc
    · simp only [if_neg h] at hc
      refine ih (n / 10) (Nat.digitChar (n % 10) :: acc) ?_ c hc
      intro x hx
      rcases List.mem_cons.mp hx with hx | hx
      · exact ⟨n % 10, Nat.mod_lt _ (by norm_num), hx⟩
      · exact hacc x hx

/-- `parseDigitsAux` processes appended input sequentially. -/
theorem parseDigitsAux_append (l₁ : List Char) :
    ∀ (l₂ : List Char) (a : Nat),
      parseDigitsAux a (l₁ ++ l₂) =
        match parseDigitsAux a l₁ with
        | some b => parseDigitsAux b l₂
        | none => none := by
  induction l₁ with
  | nil => intro l₂ a; rfl
  | cons c cs ih =>
    intro l₂ a
    show parseDigitsAux a (c :: (cs ++ l₂)) = _
    cases hdv : digitVal? c with
    | some d =>
      simp only [parseDigitsAux, hdv]
      exact ih l₂ (a * 10 + d)
    | none => simp only [parseDigitsAux, hdv]

/-- Parsing the digits of `n` appends the digits of `n` to the accumulated
value scaled by the emitted power of ten. -/
theorem parse_toDigitsCore (fuel : Nat) :
    ∀ n : Nat, n < fuel → ∀ a : Nat,
      ∃ k, parseDigitsAux a (Nat.toDigitsCore 10 fuel n []) = some (a * 10 ^ k + n) := by
  induction fuel with
  | zero => intro n hn; omega
  | succ f ih =>
    intro n hn a
    rw [Nat.toDigitsCore]
    by_cases h : n / 10 = 0
    · refine ⟨1, ?_⟩
      simp only [if_pos h]
      simp only [parseDigitsAux, digitVal?_digitChar _ (Nat.mod_lt _ (by norm_num))]
      have : n % 10 = n := by omega
      rw [this]
      norm_num
    · simp only [if_neg h]
      have hlt : n / 10 < f := by
        have h1 : n / 10 < n := Nat.div_lt_self (by omega) (by norm_num)
        omega
      rw [toDigitsCore_append f (n / 10) [Nat.digitChar (n % 10)], parseDigitsAux_append]
      obtain ⟨k, hk⟩ := ih (n / 10) hlt a
      rw [hk]
      refine ⟨k + 1, ?_⟩
      show parseDigitsAux (a * 10 ^ k + n / 10) [Nat.digitChar (n % 10)] = _
      simp only [parseDigitsAux, digitVal?_digitChar _ (Nat.mod_lt _ (by norm_num))]
      have hd : 10 * (n / 10) + n % 10 = n := Nat.div_add_mod n 10
      have : (a * 10 ^ k + n / 10) * 10 + n % 10 = a * 10 ^ (k + 1) + n := by ring_nf; omega
      rw [this]

/-- The decimal rendering of a natural number is nonempty. -/
theorem toDigits_ne_nil (n : Nat) : Nat.toDigits 10 n ≠ [] := by
  rw [Nat.toDigits, Nat.toDigitsCore]
  by_cases h : n / 10 = 0
  · simp [h]
  · simp only [if_neg h]
    rw [toDigitsCore_append n (n / 10) [Nat.digitChar (n % 10)]]
    simp

/-- `dropWhile` is the identity when no element satisfies the test. -/
theorem dropWhile_false (p : Char → Bool) (l : List Char)
    (h : ∀ c ∈ l, p c = false) : List.dropWhile p l = l := by
  cases l with
  | nil => rfl
  | cons c cs => simp [List.dropWhile, h c (by simp)]

/-- Stripping is the identity on whitespace-free text. -/
theorem pyTrim_no_space (l : List Char) (h : ∀ c ∈ l, isSpaceChar c = false) :
    pyTrim ⟨l⟩ = ⟨l⟩ := by
  unfold pyTrim
  rw [show (String.mk l).data = l from rfl]
  rw [dropWhile_false _ l h]
  rw [dropWhile_false _ l.reverse (fun c hc => h c (List.mem_reverse.mp hc))]
  simp

/-- The lock marker written for `pid` parses back to exactly `pid`:
`int(str(pid))` round-trips. -/
theorem ownerPid_lockMarker (pid : Nat) : ownerPid (lockMarker pid) = some (pid : Int) := by
  have hchars : ∀ c ∈ Nat.toDigits 10 pid, ∃ d, d < 10 ∧ c = Nat.digitChar d :=
    toDigitsCore_chars (pid + 1) pid [] (by simp)
  have hnospace : ∀ c ∈ Nat.toDigits 10 pid, isSpaceChar c = false := by
    intro c hc
    obtain ⟨d, hd, rfl⟩ := hchars c hc
    exact digitChar_not_space d hd
  have hmk : lockMarker pid = ⟨Nat.toDigits 10 pid⟩ := rfl
  have htrim : pyTrim (lockMarker pid) = ⟨Nat.toDigits 10 pid⟩ := by
    rw [hmk]; exact pyTrim_no_space _ hnospace
  rw [ownerPid, htrim, pyToInt?, pyTrim_no_space _ hnospace]
  rw [show (String.mk (Nat.toDigits 10 pid)).data = Nat.toDigits 10 pid from rfl]
  obtain ⟨c, rest, hcons⟩ : ∃ c rest, Nat.toDigits 10 pid = c :: rest := by
    cases hd : Nat.toDigits 10 pid with
    | nil => exact absurd hd (toDigits_ne_nil pid)
    | cons c rest => exact ⟨c, rest, rfl⟩
  obtain ⟨d, hd, hcd⟩ := hchars c (by rw [hcons]; simp)
  obtain ⟨hdash, hplus⟩ := digitChar_not_sign d hd
  obtain ⟨k, hk⟩ := parse_toDigitsCore (pid + 1) pid (by omega) 0
  rw [hcons]
  simp only [pyToIntChars, if_neg (hcd ▸ hdash), if_neg (hcd ▸ hplus)]
  have hparse : parseDigits (c :: rest) = some pid := by
    rw [parseDigits]
    simp only [List.isEmpty_cons, if_neg (by simp : ¬((false : Bool) = true))]
    rw [← hcons]
    rw [show Nat.toDigits 10 pid = Nat.toDigitsCore 10 (pid + 1) pid [] from rfl, hk]
    simp
  rw [hparse]
  simp

/-! Order-theoretic facts about the Python string comparison and the
`order_tasks` sort key. -/

theorem charsLe_refl (l : List Char) : charsLe l l = true := by
  induction l with
  | nil => rfl
  | cons c cs ih => simp [charsLe, ih]

theorem charsLe_total (a : List Char) : ∀ b, charsLe a b = true ∨ charsLe b a = true := by
  induction a with
  | nil => intro b; left; rfl
  | cons c cs ih =>
    intro b
    cases b with
    | nil => right; rfl
    | cons d ds =>
      by_cases h1 : c.toNat < d.toNat
      · left; simp [charsLe, h1]
      · by_cases h2 : d.toNat < c.toNat
        · right; simp [charsLe, h2]
        · rcases ih ds with h | h
          · left; simp [charsLe, h1, h2, h]
          · right; simp [charsLe, h1, h2, h]

theorem charsLe_trans (a : List Char) :
    ∀ b c, charsLe a b = true → charsLe b c = true → charsLe a c = true := by
  induction a with
  | nil => intro b c _ _; rfl
  | cons x xs ih =>
    intro b c hab hbc
    cases b with
    | nil => simp [charsLe] at hab
    | cons y ys =>
      cases c with
      | nil => simp [charsLe] at hbc
      | cons z zs =>
        simp only [charsLe] at hab hbc ⊢
        split_ifs at hab hbc ⊢ <;>
          first
          | rfl
          | omega
          | exact ih ys zs hab hbc

/-- The lexicographic reading of the Python tuple comparison on sort keys. -/
theorem keyLe_iff (p₁ h₁ : Nat) (o₁ : Int) (i₁ : String) (p₂ h₂ : Nat) (o₂ : Int) (i₂ : String) :
    keyLe (p₁, h₁, o₁, i₁) (p₂, h₂, o₂, i₂) = true ↔
      (p₁ < p₂ ∨ (p₁ = p₂ ∧ (h₁ < h₂ ∨ (h₁ = h₂ ∧
        (o₁ < o₂ ∨ (o₁ = o₂ ∧ pyStrLe i₁ i₂ = true)))))) := by
  constructor
  · intro h
    simp only [keyLe] at h
    split_ifs at h with hp1 hp2 hh1 hh2 ho1 ho2
    · exact Or.inl hp1
    · exact Or.inr ⟨by omega, Or.inl hh1⟩
    · exact Or.inr ⟨by omega, Or.inr ⟨by omega, Or.inl ho1⟩⟩
    · exact Or.inr ⟨by omega, Or.inr ⟨by omega, Or.inr ⟨by omega, h⟩⟩⟩
  · intro h
    simp only [keyLe]
    split_ifs with hp1 hp2 hh1 hh2 ho1 ho2
    · rfl
    · rcases h with h | ⟨he, _⟩ <;> omega
    · rfl
    · rcases h with h | ⟨he, h | ⟨hh, _⟩⟩ <;> omega
    · rfl
    · rcases h with h | ⟨he, h | ⟨hh, h | ⟨ho, _⟩⟩⟩ <;> omega
    · rcases h with h | ⟨he, h | ⟨hh, h | ⟨ho, hs⟩⟩⟩
      · exact (hp1 h).elim
      · exact (hh1 h).elim
      · exact (ho1 h).elim
      · exact hs

theorem keyLe_total (a b : Nat × Nat × Int × String) :
    keyLe a b = true ∨ keyLe b a = true := by
  obtain ⟨p₁, h₁, o₁, i₁⟩ := a
  obtain ⟨p₂, h₂, o₂, i₂⟩ := b
  rw [keyLe_iff, keyLe_iff]
  rcases charsLe_total i₁.data i₂.data with h | h
  · by_cases hp : p₁ = p₂
    · by_cases hh : h₁ = h₂
      · by_cases ho : o₁ = o₂
        · left; exact Or.inr ⟨hp, Or.inr ⟨hh, Or.inr ⟨ho, h⟩⟩⟩
        · rcases Int.lt_or_lt_of_ne ho with h' | h'
          · left; exact Or.inr ⟨hp, Or.inr ⟨hh, Or.inl h'⟩⟩
          · right; exact Or.inr ⟨hp.symm, Or.inr ⟨hh.symm, Or.inl h'⟩⟩
      · rcases Nat.lt_or_ge h₁ h₂ with h' | h'
        · left; exact Or.inr ⟨hp, Or.inl h'⟩
        · right; exact Or.inr ⟨hp.symm, Or.inl (by omega)⟩
    · rcases Nat.lt_or_ge p₁ p₂ with h' | h'
      · left; exact Or.inl h'
      · right; exact Or.inl (by omega)
  · by_cases hp : p₁ = p₂
    · by_cases hh : h₁ = h₂
      · by_cases ho : o₁ = o₂
        · right; exact Or.inr ⟨hp.symm, Or.inr ⟨hh.symm, Or.inr ⟨ho.symm, h⟩⟩⟩
        · rcases Int.lt_or_lt_of_ne ho with h' | h'
          · left; exact Or.inr ⟨hp, Or.inr ⟨hh, Or.inl h'⟩⟩
          · right; exact Or.inr ⟨hp.symm, Or.inr ⟨hh.symm, Or.inl h'⟩⟩
      · rcases Nat.lt_or_ge h₁ h₂ with h' | h'
        · left; exact Or.inr ⟨hp, Or.inl h'⟩
        · right; exact Or.inr ⟨hp.symm, Or.inl (by omega)⟩
    · rcases Nat.lt_or_ge p₁ p₂ with h' | h'
      · left; exact Or.inl h'
      · right; exact Or.inl (by omega)

theorem keyLe_trans (a b c : Nat × Nat × Int × String) :
    keyLe a b = true → keyLe b c = true → keyLe a c = true := by
  obtain ⟨p₁, h₁, o₁, i₁⟩ := a
  obtain ⟨p₂, h₂, o₂, i₂⟩ := b
  obtain ⟨p₃, h₃, o₃, i₃⟩ := c
  rw [keyLe_iff, keyLe_iff, keyLe_iff]
  rintro (hab | ⟨rfl, hab | ⟨rfl, hab | ⟨rfl, hab⟩⟩⟩) (hbc | ⟨rfl, hbc | ⟨rfl, hbc | ⟨rfl, hbc⟩⟩⟩) <;>
    first
    | (left; omega)
    | (right; exact ⟨rfl, by left; omega⟩)
    | (right; refine ⟨rfl, ?_⟩; right; exact ⟨rfl, by left; omega⟩)
    | (right; refine ⟨rfl, ?_⟩; right; refine ⟨rfl, ?_⟩; right;
       exact ⟨rfl, charsLe_trans i₁.data i₂.data i₃.data hab hbc⟩)

instance : IsTotal TaskRecord taskLe :=
  ⟨fun a b => keyLe_total (taskKey a) (taskKey b)⟩

instance : IsTrans TaskRecord taskLe :=
  ⟨fun a b c => keyLe_trans (taskKey a) (taskKey b) (taskKey c)⟩

/-- The spec's reading of the order-hint comparison: a present hint sorts
before an absent one, and present hints sort ascending by value. -/
def hintLtSpec : Option Int → Option Int → Prop
  | some m, some n => m < n
  | some _, none => True
  | none, _ => False

/-- The order the spec describes for `order_tasks`: ascending by priority
rank, then by order hint (present before absent, ascending by value), then
by id, lexicographically by code point, as the final tie-break. -/
def specLe (t u : TaskRecord) : Prop :=
  prioRank t < prioRank u ∨
  (prioRank t = prioRank u ∧
    (hintLtSpec (hintOf t) (hintOf u) ∨
      (hintOf t = hintOf u ∧ pyStrLe (keyId t) (keyId u) = true)))

/-- The code's tuple-key comparison is exactly the spec's described order. -/
theorem taskLe_iff_specLe (t u : TaskRecord) : taskLe t u ↔ specLe t u := by
  unfold taskLe taskKey specLe
  rw [keyLe_iff]
  cases ht : hintOf t <;> cases hu : hintOf u <;>
    simp [hintLtSpec, ht, hu]

/-- The two example records of the C3 claim: a P0 task with no order hint
and id `"b"`, and a P1 task with order hint 0 and id `"a"`. -/
def exP0 : TaskRecord :=
  ⟨some (.vStr "b"), none, some (.vStr "queued"), some (.vStr "P0"), none, none⟩

def exP1 : TaskRecord :=
  ⟨some (.vStr "a"), none, some (.vStr "queued"), some (.vStr "P1"), none, some (.vInt 0)⟩

/-- Claim C3: `order_tasks` is a deterministic, stable, total ordering of any
eligible set: its output is a permutation of its input, sorted by the
spec's relation (priority rank with unrecognized priorities last, then order
hint with present-before-absent, then id), that relation is total and
transitive, and in particular the P0 task with no order hint sorts before
the P1 task with order hint 0.  Determinism and stability in the spec's
sense (identical input yields an identical output sequence) hold because
`order_tasks` is a pure function of its input list. -/
theorem c3_order_tasks_total_ordering :
    ∀ l : List TaskRecord,
      (order_tasks l).Perm l ∧
      (order_tasks l).Sorted specLe ∧
      (∀ a b, specLe a b ∨ specLe b a) ∧
      (∀ a b c, specLe a b → specLe b c → specLe a c) ∧
      order_tasks [exP1, exP0] = [exP0, exP1] := by
  intro l
  refine ⟨List.perm_insertionSort taskLe l, ?_, ?_, ?_, ?_⟩
  · exact (List.sorted_insertionSort taskLe l).imp
      (fun h => (taskLe_iff_specLe _ _).mp h)
  · intro a b
    rcases keyLe_total (taskKey a) (taskKey b) with h | h
    · exact Or.inl ((taskLe_iff_specLe a b).mp h)
    · exact Or.inr ((taskLe_iff_specLe b a).mp h)
  · intro a b c hab hbc
    exact (taskLe_iff_specLe a c).mp
      (keyLe_trans _ _ _ ((taskLe_iff_specLe a b).mpr hab) ((taskLe_iff_specLe b c).mpr hbc))
  · decide

/-- Witness for C3 at a concrete input: the claimed P0-before-P1 example and
the permutation property at that input. -/
theorem c3_order_tasks_witness :
    order_tasks [exP1, exP0] = [exP0, exP1] ∧
    (order_tasks [exP1, exP0]).Perm [exP1, exP0] :=
  ⟨(c3_order_tasks_total_ordering [exP1, exP0]).2.2.2.2,
   (c3_order_tasks_total_ordering [exP1, exP0]).1⟩

/-- Counterexample for C4 as stated: the claim says `release` removes the
marker only when the recorded identity matches the caller's; but for the
marker content `"garbage"`, which records no parsable identity at all
(so in particular not pid 42), `release` by pid 42 still removes the marker. -/
theorem c4_release_counterexample :
    release (some "garbage") 42 = none ∧ ownerPid "garbage" = none :=
  ⟨by decide, by decide⟩

/-- Claim C4 (amended): `acquire` with `timeout=0` called twice without a
release answers true then false for any callers; `release` removes an
existing marker exactly when its content fails to parse as a pid or parses
to the caller's pid, is a silent no-op when it parses to a different pid,
in particular the true holder's own marker is always removed; and release by
the true holder followed by `acquire` answers true. -/
theorem c4_lock_protocol :
    (∀ pid pid₂ : Nat,
      (acquire none pid).1 = true ∧ (acquire (acquire none pid).2 pid₂).1 = false) ∧
    (∀ (content : String) (pid : Nat) (p : Int),
      ownerPid content = some p → p ≠ (pid : Int) →
      release (some content) pid = some content) ∧
    (∀ (content : String) (pid : Nat),
      (ownerPid content = none ∨ ownerPid content = some (pid : Int)) →
      release (some content) pid = none) ∧
    (∀ pid : Nat, release (some (lockMarker pid)) pid = none) ∧
    (∀ pid pid₂ : Nat, (acquire (release (acquire none pid).2 pid) pid₂).1 = true) := by
  refine ⟨fun pid pid₂ => ⟨rfl, rfl⟩, ?_, ?_, ?_, ?_⟩
  · intro content pid p hp hne
    simp only [release, hp]
    simp [hne]
  · intro content pid h
    rcases h with h | h
    · simp only [release, h]
    · simp only [release, h]
      simp
  · intro pid
    simp only [release, ownerPid_lockMarker]
    simp
  · intro pid pid₂
    show (acquire (release (some (lockMarker pid)) pid) pid₂).1 = true
    simp only [release, ownerPid_lockMarker]
    simp [acquire]

/-- Witness for C4 at concrete pids and marker contents. -/
theorem c4_lock_protocol_witness :
    (acquire none 7).1 = true ∧
    (acquire (acquire none 7).2 9).1 = false ∧
    release (some "99") 42 = some "99" ∧
    release (some (lockMarker 7)) 7 = none ∧
    (acquire (release (acquire none 7).2 7) 9).1 = true :=
  ⟨(c4_lock_protocol.1 7 9).1,
   (c4_lock_protocol.1 7 9).2,
   c4_lock_protocol.2.1 "99" 42 99 (by decide) (by decide),
   c4_lock_protocol.2.2.2.1 7,
   c4_lock_protocol.2.2.2.2 7 9⟩

/-! Structural facts about one polling round. -/

theorem pollClosedPhase_reviewed (s : PollState) (marks : List String)
    (c : RemoteResp ClosedPR) : (pollClosedPhase s marks c).2.reviewed = marks := by
  unfold pollClosedPhase
  by_cases h0 : s.cycle = 0 <;> by_cases hc : c.status = 200 <;>
      by_cases hc3 : c.status = 304 <;> simp [h0, hc, hc3]

theorem pollClosedPhase_reviewed_heads (s : PollState) (marks : List String)
    (c : RemoteResp ClosedPR) :
    (pollClosedPhase s marks c).1.reviewed_heads = s.reviewed_heads := by
  unfold pollClosedPhase
  by_cases h0 : s.cycle = 0 <;> by_cases hc : c.status = 200 <;>
      by_cases hc3 : c.status = 304 <;> simp [h0, hc, hc3]

theorem pollClosedPhase_open_etag (s : PollState) (marks : List String)
    (c : RemoteResp ClosedPR) :
    (pollClosedPhase s marks c).1.open_etag = s.open_etag := by
  unfold pollClosedPhase
  by_cases h0 : s.cycle = 0 <;> by_cases hc : c.status = 200 <;>
      by_cases hc3 : c.status = 304 <;> simp [h0, hc, hc3]

theorem pollClosedPhase_cycle (s : PollState) (marks : List String)
    (c : RemoteResp ClosedPR) :
    (pollClosedPhase s marks c).1.cycle = (s.cycle + 1) % 3 := by
  unfold pollClosedPhase
  by_cases h0 : s.cycle = 0 <;> by_cases hc : c.status = 200 <;>
      by_cases hc3 : c.status = 304 <;> simp [h0, hc, hc3]

theorem pollClosedPhase_integrated (s : PollState) (marks : List String)
    (c : RemoteResp ClosedPR) :
    (pollClosedPhase s marks c).2.integrated =
      if s.cycle = 0 ∧ c.status = 200 then
        newMerges s.last_seen_merged_at c.payload
      else [] := by
  unfold pollClosedPhase
  by_cases h0 : s.cycle = 0 <;> by_cases hc : c.status = 200 <;>
      by_cases hc3 : c.status = 304 <;> simp [h0, hc, hc3]

theorem pollClosedPhase_last (s : PollState) (marks : List String)
    (c : RemoteResp ClosedPR) :
    (pollClosedPhase s marks c).1.last_seen_merged_at =
      if s.cycle = 0 ∧ c.status = 200 then
        setWatermark s.last_seen_merged_at
          (advanceWatermark s.last_seen_merged_at
            (newMerges s.last_seen_merged_at c.payload))
      else s.last_seen_merged_at := by
  unfold pollClosedPhase
  by_cases h0 : s.cycle = 0 <;> by_cases hc : c.status = 200 <;>
      by_cases hc3 : c.status = 304 <;> simp [h0, hc, hc3]

theorem pollClosedPhase_closed_etag (s : PollState) (marks : List String)
    (c : RemoteResp ClosedPR) :
    (pollClosedPhase s marks c).1.closed_etag =
      if s.cycle = 0 ∧ c.status = 200 then saveEtag s.closed_etag c.etag
      else s.closed_etag := by
  unfold pollClosedPhase
  by_cases h0 : s.cycle = 0 <;> by_cases hc : c.status = 200 <;>
      by_cases hc3 : c.status = 304 <;> simp [h0, hc, hc3]

/-- The state `poll_repo` threads into the closed phase after a fresh open
answer. -/
def afterOpen (σ : List String → List String) (s : PollState)
    (o : RemoteResp OpenPR) : PollState :=
  { s with
    open_etag := saveEtag s.open_etag o.etag
    reviewed_heads :=
      if (openMarks s.reviewed_heads o.payload).isEmpty then s.reviewed_heads
      else updateReviewedHeads σ s.reviewed_heads (openMarks s.reviewed_heads o.payload) }

theorem poll_repo_200 (σ : List String → List String) (s : PollState)
    (o : RemoteResp OpenPR) (c : RemoteResp ClosedPR) (h : o.status = 200) :
    poll_repo σ s o c =
      pollClosedPhase (afterOpen σ s o) (openMarks s.reviewed_heads o.payload) c := by
  unfold poll_repo afterOpen
  rw [if_pos h]

theorem poll_repo_304 (σ : List String → List String) (s : PollState)
    (o : RemoteResp OpenPR) (c : RemoteResp ClosedPR) (h : o.status = 304) :
    poll_repo σ s o c = pollClosedPhase s [] c := by
  unfold poll_repo
  rw [h]
  simp

/-- Claim C8: a 304 answer on a collection triggers no dispatch evaluation
for that collection and leaves its stored validator untouched — a 304 on the
open collection dispatches no review and keeps both the open validator and
the reviewed-heads set, and a 304 on the closed collection dispatches no
integration and keeps both the closed validator and the merge watermark. -/
theorem c8_not_modified_no_dispatch (σ : List String → List String)
    (s : PollState) (o : RemoteResp OpenPR) (c : RemoteResp ClosedPR) :
    (o.status = 304 →
      (poll_repo σ s o c).2.reviewed = [] ∧
      (poll_repo σ s o c).1.open_etag = s.open_etag ∧
      (poll_repo σ s o c).1.reviewed_heads = s.reviewed_heads) ∧
    (c.status = 304 →
      (poll_repo σ s o c).2.integrated = [] ∧
      (poll_repo σ s o c).1.closed_etag = s.closed_etag ∧
      (poll_repo σ s o c).1.last_seen_merged_at = s.last_seen_merged_at) := by
  constructor
  · intro h
    rw [poll_repo_304 σ s o c h]
    exact ⟨pollClosedPhase_reviewed s [] c, pollClosedPhase_open_etag s [] c,
      pollClosedPhase_reviewed_heads s [] c⟩
  · intro h
    have hne : ¬(200 = 200 ∧ (304 : Nat) = 200) := by omega
    by_cases ho : o.status = 200
    · rw [poll_repo_200 σ s o c ho]
      refine ⟨?_, ?_, ?_⟩
      · rw [pollClosedPhase_integrated, h]
        split_ifs with hcy
        · exact absurd hcy.2 (by omega)
        · rfl
      · rw [pollClosedPhase_closed_etag, h]
        split_ifs with hcy
        · exact absurd hcy.2 (by omega)
        · rfl
      · rw [pollClosedPhase_last, h]
        split_ifs with hcy
        · exact absurd hcy.2 (by omega)
        · rfl
    · by_cases ho2 : o.status = 304
      · rw [poll_repo_304 σ s o c ho2]
        refine ⟨?_, ?_, ?_⟩
        · rw [pollClosedPhase_integrated, h]
          split_ifs with hcy
          · exact absurd hcy.2 (by omega)
          · rfl
        · rw [pollClosedPhase_closed_etag, h]
          split_ifs with hcy
          · exact absurd hcy.2 (by omega)
          · rfl
        · rw [pollClosedPhase_last, h]
          split_ifs with hcy
          · exact absurd hcy.2 (by omega)
          · rfl
      · unfold poll_repo
        rw [if_neg ho, if_neg ho2]
        exact ⟨rfl, rfl, rfl⟩

/-- Witness for C8: conditional answers of 304 on both collections at a
concrete populated state dispatch nothing and keep both validators. -/
theorem c8_not_modified_witness :
    (poll_repo List.dedup ⟨["s1"], some "E1", some "E2", some "M1", 0⟩
        ⟨304, some "E9", [⟨"r", "s2"⟩]⟩ ⟨304, some "E8", [⟨some "2021-01-01"⟩]⟩).2.reviewed = [] ∧
    (poll_repo List.dedup ⟨["s1"], some "E1", some "E2", some "M1", 0⟩
        ⟨304, some "E9", [⟨"r", "s2"⟩]⟩ ⟨304, some "E8", [⟨some "2021-01-01"⟩]⟩).1.open_etag = some "E1" ∧
    (poll_repo List.dedup ⟨["s1"], some "E1", some "E2", some "M1", 0⟩
        ⟨304, some "E9", [⟨"r", "s2"⟩]⟩ ⟨304, some "E8", [⟨some "2021-01-01"⟩]⟩).2.integrated = [] ∧
    (poll_repo List.dedup ⟨["s1"], some "E1", some "E2", some "M1", 0⟩
        ⟨304, some "E9", [⟨"r", "s2"⟩]⟩ ⟨304, some "E8", [⟨some "2021-01-01"⟩]⟩).1.closed_etag = some "E2" :=
  ⟨((c8_not_modified_no_dispatch List.dedup _ _ _).1 rfl).1,
   ((c8_not_modified_no_dispatch List.dedup _ _ _).1 rfl).2.1,
   ((c8_not_modified_no_dispatch List.dedup _ _ _).2 rfl).1,
   ((c8_not_modified_no_dispatch List.dedup _ _ _).2 rfl).2.1⟩

/-! Claim C6: the reviewed-heads retention cap. -/

/-- One admissible hash-set iteration order: each distinct element exactly
once, in reversed last-occurrence order. -/
def revOrder (l : List String) : List String := l.dedup.reverse

theorem revOrder_perm_dedup (l : List String) : (revOrder l).Perm l.dedup :=
  l.dedup.reverse_perm

/-- Two hundred distinct stored head identifiers `h0`, …, `h199`. -/
def heads200 : List String :=
  (List.range 200).map (fun i => String.mk ('h' :: (toString i).data))

set_option maxRecDepth 40000 in
set_option maxHeartbeats 1600000 in
/-- Claim C6: after every update the reviewed-heads list indeed holds at most
the fixed cap of 200 identifiers, for every iteration order and every input —
but the oldest-first-eviction half of the claim fails: with the cap reached,
there is an admissible set iteration order (sets do not iterate in insertion
order) under which the update evicts exactly the newest identifier and keeps
all 200 old ones. -/
theorem c6_reviewed_heads_cap_eviction :
    (∀ (σ : List String → List String) (old marks : List String),
      (updateReviewedHeads σ old marks).length ≤ 200) ∧
    (∀ l, (revOrder l).Perm l.dedup) ∧
    updateReviewedHeads revOrder heads200 ["hNew"] = heads200.reverse ∧
    "hNew" ∉ updateReviewedHeads revOrder heads200 ["hNew"] := by
  refine ⟨?_, revOrder_perm_dedup, ?_, ?_⟩
  · intro σ old marks
    unfold updateReviewedHeads
    rw [List.length_drop]
    omega
  · decide
  · decide

/-! Claim C2: idempotence of the polling round.  First, facts about the
watermark fold, the dispatched-merge selection and the reviewed-marks
selection. -/

theorem pyStrLe_refl (s : String) : pyStrLe s s = true := charsLe_refl s.data

theorem pyStrLe_total (a b : String) : pyStrLe a b = true ∨ pyStrLe b a = true :=
  charsLe_total a.data b.data

theorem pyStrLe_trans (a b c : String) :
    pyStrLe a b = true → pyStrLe b c = true → pyStrLe a c = true :=
  charsLe_trans a.data b.data c.data

theorem pyStrLe_empty_right (m : String) (h : m ≠ "") : pyStrLe m "" = false := by
  cases hm : m.data with
  | nil => exact absurd (String.ext hm) h
  | cons c cs => unfold pyStrLe; rw [hm]; rfl

/-- One step of the `max_seen` fold. -/
def wstep : Option String → String → Option String
  | none, m => some m
  | some a, m => if !(pyStrLe m a) then some m else some a

theorem advanceWatermark_cons (acc : Option String) (x : String) (ms : List String) :
    advanceWatermark acc (x :: ms) = advanceWatermark (wstep acc x) ms := by
  cases acc <;> rfl

theorem wstep_ne_none (acc : Option String) (x : String) : wstep acc x ≠ none := by
  cases acc with
  | none => simp [wstep]
  | some a => rw [wstep]; split_ifs <;> simp

theorem aw_acc_le (ms : List String) :
    ∀ a v, advanceWatermark (some a) ms = some v → pyStrLe a v = true := by
  induction ms with
  | nil =>
    intro a v h
    obtain rfl : a = v := by simpa [advanceWatermark] using h
    exact pyStrLe_refl a
  | cons x ms ih =>
    intro a v h
    rw [advanceWatermark_cons] at h
    by_cases hle : pyStrLe x a = true
    · rw [show wstep (some a) x = some a by simp [wstep, hle]] at h
      exact ih a v h
    · rw [show wstep (some a) x = some x by simp [wstep, hle]] at h
      have hax : pyStrLe a x = true := (pyStrLe_total x a).resolve_left hle
      exact pyStrLe_trans a x v hax (ih x v h)

theorem aw_mem_le (ms : List String) :
    ∀ acc v, advanceWatermark acc ms = some v → ∀ x ∈ ms, pyStrLe x v = true := by
  induction ms with
  | nil => intro acc v _ x hx; exact absurd hx (by simp)
  | cons y ms ih =>
    intro acc v h x hx
    rw [advanceWatermark_cons] at h
    rcases List.mem_cons.mp hx with rfl | hx
    · obtain ⟨b, hb, hxb⟩ : ∃ b, wstep acc x = some b ∧ pyStrLe x b = true := by
        cases acc with
        | none => exact ⟨x, rfl, pyStrLe_refl x⟩
        | some a =>
          by_cases hle : pyStrLe x a = true
          · exact ⟨a, by simp [wstep, hle], hle⟩
          · exact ⟨x, by simp [wstep, hle], pyStrLe_refl x⟩
      rw [hb] at h
      exact pyStrLe_trans x b v hxb (aw_acc_le ms b v h)
    · exact ih (wstep acc y) v h x hx

theorem aw_none (ms : List String) :
    ∀ acc, advanceWatermark acc ms = none → acc = none ∧ ms = [] := by
  induction ms with
  | nil => intro acc h; exact ⟨by simpa [advanceWatermark] using h, rfl⟩
  | cons x ms ih =>
    intro acc h
    rw [advanceWatermark_cons] at h
    exact absurd (ih (wstep acc x) h).1 (wstep_ne_none acc x)

theorem aw_source (ms : List String) :
    ∀ acc v, advanceWatermark acc ms = some v → acc = some v ∨ v ∈ ms := by
  induction ms with
  | nil => intro acc v h; exact Or.inl (by simpa [advanceWatermark] using h)
  | cons x ms ih =>
    intro acc v h
    rw [advanceWatermark_cons] at h
    rcases ih (wstep acc x) v h with hw | hmem
    · cases acc with
      | none =>
        obtain rfl : x = v := by simpa [wstep] using hw
        exact Or.inr (by simp)
      | some a =>
        by_cases hle : pyStrLe x a = true
        · rw [show wstep (some a) x = some a by simp [wstep, hle]] at hw
          exact Or.inl hw
        · rw [show wstep (some a) x = some x by simp [wstep, hle]] at hw
          obtain rfl : x = v := by simpa using hw
          exact Or.inr (by simp)
    · exact Or.inr (List.mem_cons_of_mem x hmem)

theorem newMerges_mem_ne_empty (last : Option String) (prs : List ClosedPR) (m : String)
    (h : m ∈ newMerges last prs) : m ≠ "" := by
  unfold newMerges at h
  rw [List.mem_filterMap] at h
  obtain ⟨pr, -, hf⟩ := h
  cases hm : pr.merged_at with
  | none => simp [hm] at hf
  | some x =>
    simp only [hm] at hf
    split_ifs at hf with h1 h2
    have hxm : x = m := Option.some.inj hf
    subst hxm
    simpa using h1

/-- Re-fetching the same closed payload after the watermark advanced
dispatches nothing. -/
theorem newMerges_idem (w₀ : Option String) (payload : List ClosedPR) :
    newMerges (setWatermark w₀ (advanceWatermark w₀ (newMerges w₀ payload))) payload = [] := by
  by_cases hT : pyTruthyStr (advanceWatermark w₀ (newMerges w₀ payload)) = true
  · obtain ⟨v, hv, hvne⟩ : ∃ v,
        advanceWatermark w₀ (newMerges w₀ payload) = some v ∧ v ≠ "" := by
      cases hM : advanceWatermark w₀ (newMerges w₀ payload) with
      | none => rw [hM] at hT; exact absurd hT (by simp [pyTruthyStr])
      | some v =>
        rw [hM] at hT
        exact ⟨v, rfl, by simpa [pyTruthyStr] using hT⟩
    have hlast : setWatermark w₀ (advanceWatermark w₀ (newMerges w₀ payload)) = some v := by
      unfold setWatermark
      rw [if_pos hT, hv]
    rw [hlast]
    unfold newMerges
    rw [List.filterMap_eq_nil_iff]
    intro pr hpr
    cases hm : pr.merged_at with
    | none => simp [hm]
    | some m =>
      by_cases hme : m = ""
      · simp [hm, hme]
      · have hmv : pyStrLe m v = true := by
          by_cases hskip : (pyTruthyStr w₀ && pyStrLe m (w₀.getD "")) = true
          · obtain ⟨w, rfl⟩ : ∃ w, w₀ = some w := by
              cases w₀ with
              | none => simp [pyTruthyStr] at hskip
              | some w => exact ⟨w, rfl⟩
            have hmw : pyStrLe m w = true := by
              have := (Bool.and_eq_true_iff.mp hskip).2
              simpa using this
            exact pyStrLe_trans m w v hmw (aw_acc_le _ w v hv)
          · have hmem : m ∈ newMerges w₀ payload := by
              unfold newMerges
              rw [List.mem_filterMap]
              refine ⟨pr, hpr, ?_⟩
              simp only [hm]
              rw [if_neg (by simpa using hme), if_neg hskip]
            exact aw_mem_le _ w₀ v hv m hmem
        simp [hm, hme, pyTruthyStr, hmv, hvne]
  · have hlast : setWatermark w₀ (advanceWatermark w₀ (newMerges w₀ payload)) = w₀ := by
      unfold setWatermark
      rw [if_neg hT]
    have hnil : newMerges w₀ payload = [] := by
      cases hM : advanceWatermark w₀ (newMerges w₀ payload) with
      | none => exact (aw_none _ w₀ hM).2
      | some v =>
        rw [hM] at hT
        have hv : v = "" := by simpa [pyTruthyStr] using hT
        cases hms : newMerges w₀ payload with
        | nil => rfl
        | cons x rest =>
          have hx : x ∈ newMerges w₀ payload := by rw [hms]; simp
          have hle : pyStrLe x v = true := aw_mem_le (newMerges w₀ payload) w₀ v hM x hx
          have hxne : x ≠ "" := newMerges_mem_ne_empty w₀ payload x hx
          rw [hv] at hle
          rw [pyStrLe_empty_right x hxne] at hle
          exact absurd hle (by simp)
    rw [hlast, hnil]

/-! Facts about the open-collection marks and the reviewed-heads update. -/

theorem openMarks_mem_of (seen : List String) (prs : List OpenPR) (pr : OpenPR)
    (hpr : pr ∈ prs) (hne : pr.sha ≠ "") (hnot : pr.sha ∉ seen) :
    pr.sha ∈ openMarks seen prs := by
  unfold openMarks
  rw [List.mem_filterMap]
  refine ⟨pr, hpr, ?_⟩
  rw [if_pos]
  rw [Bool.and_eq_true_iff]
  constructor
  · simpa using hne
  · simpa [List.contains, List.elem_iff] using hnot

theorem openMarks_eq_nil (seen : List String) (prs : List OpenPR)
    (h : ∀ pr ∈ prs, pr.sha = "" ∨ pr.sha ∈ seen) : openMarks seen prs = [] := by
  unfold openMarks
  rw [List.filterMap_eq_nil_iff]
  intro pr hpr
  rcases h pr hpr with hc | hc
  · simp [hc]
  · rw [if_neg]
    simp [List.contains, List.elem_iff, hc]

theorem updateReviewedHeads_perm (σ : List String → List String)
    (hσ : ∀ l, (σ l).Perm l.dedup) (old marks : List String)
    (hcap : (old ++ marks).dedup.length ≤ 200) :
    (updateReviewedHeads σ old marks).Perm (old ++ marks).dedup := by
  unfold updateReviewedHeads
  have hp := hσ (old ++ marks)
  have hlen : (σ (old ++ marks)).length = (old ++ marks).dedup.length := hp.length_eq
  show (List.drop ((σ (old ++ marks)).length - 200) (σ (old ++ marks))).Perm (old ++ marks).dedup
  rw [show (σ (old ++ marks)).length - 200 = 0 by omega, List.drop_zero]
  exact hp

theorem newMerges_cons (last : Option String) (pr : ClosedPR) (prs : List ClosedPR) :
    newMerges last (pr :: prs) =
      (match pr.merged_at with
       | none => newMerges last prs
       | some m =>
         if m == "" then newMerges last prs
         else if pyTruthyStr last && pyStrLe m (last.getD "") then newMerges last prs
         else m :: newMerges last prs) := by
  unfold newMerges
  rw [List.filterMap_cons]
  cases hm : pr.merged_at with
  | none => rfl
  | some m => simp only; split_ifs <;> rfl

/-- A closed entry bearing a truthy merge stamp strictly above `w`. -/
def newAbove (w : String) (pr : ClosedPR) : Prop :=
  ∃ m, pr.merged_at = some m ∧ m ≠ "" ∧ pyStrLe m w = false

instance newAboveDec (w : String) (pr : ClosedPR) : Decidable (newAbove w pr) :=
  match hm : pr.merged_at with
  | none => isFalse (by unfold newAbove; simp [hm])
  | some m =>
    if h : m ≠ "" ∧ pyStrLe m w = false then
      isTrue ⟨m, hm, h.1, h.2⟩
    else
      isFalse (by
        unfold newAbove
        rintro ⟨m', hm', hne, hf⟩
        have hmm : m = m' := Option.some.inj (hm.symm.trans hm')
        cases hmm
        exact h ⟨hne, hf⟩)

/-- With a truthy stored watermark, the number of integration dispatches is
the number of payload entries whose merge stamp is truthy and strictly above
the watermark. -/
theorem newMerges_length_countP (w : String) (hw : w ≠ "") (payload : List ClosedPR) :
    (newMerges (some w) payload).length =
      payload.countP (fun pr => decide (newAbove w pr)) := by
  induction payload with
  | nil => rfl
  | cons pr prs ih =>
    rw [newMerges_cons, List.countP_cons]
    cases hm : pr.merged_at with
    | none => simp [newAbove, hm, ih]
    | some m =>
      by_cases hme : m = ""
      · simp [newAbove, hm, hme, ih]
      · by_cases hle : pyStrLe m w = true
        · simp [newAbove, hm, hme, hle, pyTruthyStr, hw, ih]
        · simp [newAbove, hm, hme, hle, pyTruthyStr, hw, ih]

/-- Claim C2 (amended): one round of `poll_repo` is idempotent provided the
reviewed-heads set stays within its 200-entry cap, for every admissible set
iteration order `σ`.  (a) Re-polling the same open payload dispatches zero
reviews the second time when the update did not overflow the cap.  (b) With
the closed collection due (cycle 0) and a truthy stored watermark, the
integration dispatch count is exactly the number of merge stamps strictly
above the watermark — one new merge means one dispatch.  (c) After a closed
poll, re-polling the same closed payload dispatches zero further
integrations on each of the next three rounds, including the round on which
the closed collection is fetched again, because the advanced watermark was
persisted with the state. -/
theorem c2_poll_repo_idempotent (σ : List String → List String)
    (hσ : ∀ l, (σ l).Perm l.dedup) :
    (∀ (s : PollState) (o : RemoteResp OpenPR) (c₁ c₂ : RemoteResp ClosedPR),
      o.status = 200 →
      (s.reviewed_heads ++ (poll_repo σ s o c₁).2.reviewed).dedup.length ≤ 200 →
      (poll_repo σ (poll_repo σ s o c₁).1 o c₂).2.reviewed = []) ∧
    (∀ (s : PollState) (o : RemoteResp OpenPR) (c : RemoteResp ClosedPR) (w : String),
      s.cycle = 0 → o.status = 304 → c.status = 200 →
      s.last_seen_merged_at = some w → w ≠ "" →
      (poll_repo σ s o c).2.integrated.length =
        c.payload.countP (fun pr => decide (newAbove w pr))) ∧
    (∀ (s : PollState) (o₁ o₂ o₃ o₄ : RemoteResp OpenPR) (c : RemoteResp ClosedPR),
      s.cycle = 0 → o₁.status = 304 → o₂.status = 304 → o₃.status = 304 →
      o₄.status = 304 → c.status = 200 →
      (poll_repo σ (poll_repo σ s o₁ c).1 o₂ c).2.integrated = [] ∧
      (poll_repo σ (poll_repo σ (poll_repo σ s o₁ c).1 o₂ c).1 o₃ c).2.integrated = [] ∧
      (poll_repo σ (poll_repo σ (poll_repo σ (poll_repo σ s o₁ c).1 o₂ c).1 o₃ c).1
        o₄ c).2.integrated = []) := by
  refine ⟨?_, ?_, ?_⟩
  · intro s o c₁ c₂ ho hcap
    have hrev1 : (poll_repo σ s o c₁).2.reviewed = openMarks s.reviewed_heads o.payload := by
      rw [poll_repo_200 σ s o c₁ ho, pollClosedPhase_reviewed]
    rw [hrev1] at hcap
    have hrh : (poll_repo σ s o c₁).1.reviewed_heads =
        (if (openMarks s.reviewed_heads o.payload).isEmpty then s.reviewed_heads
         else updateReviewedHeads σ s.reviewed_heads (openMarks s.reviewed_heads o.payload)) := by
      rw [poll_repo_200 σ s o c₁ ho, pollClosedPhase_reviewed_heads]
      rfl
    have hrev2 : (poll_repo σ (poll_repo σ s o c₁).1 o c₂).2.reviewed =
        openMarks (poll_repo σ s o c₁).1.reviewed_heads o.payload := by
      rw [poll_repo_200 σ _ o c₂ ho, pollClosedPhase_reviewed]
    rw [hrev2]
    apply openMarks_eq_nil
    intro pr hpr
    by_cases hsha : pr.sha = ""
    · exact Or.inl hsha
    · right
      rw [hrh]
      by_cases hmem : pr.sha ∈ s.reviewed_heads
      · split_ifs with hempty
        · exact hmem
        · have hperm := updateReviewedHeads_perm σ hσ s.reviewed_heads
            (openMarks s.reviewed_heads o.payload) hcap
          rw [hperm.mem_iff, List.mem_dedup]
          exact List.mem_append_left _ hmem
      · have hmarks : pr.sha ∈ openMarks s.reviewed_heads o.payload :=
          openMarks_mem_of _ _ pr hpr hsha hmem
        split_ifs with hempty
        · rw [List.isEmpty_iff] at hempty
          rw [hempty] at hmarks
          exact absurd hmarks (by simp)
        · have hperm := updateReviewedHeads_perm σ hσ s.reviewed_heads
            (openMarks s.reviewed_heads o.payload) hcap
          rw [hperm.mem_iff, List.mem_dedup]
          exact List.mem_append_right _ hmarks
  · intro s o c w hcy ho hc hw hwne
    have hint : (poll_repo σ s o c).2.integrated = newMerges (some w) c.payload := by
      rw [poll_repo_304 σ s o c ho, pollClosedPhase_integrated, if_pos ⟨hcy, hc⟩, hw]
    rw [hint, newMerges_length_countP w hwne c.payload]
  · intro s o₁ o₂ o₃ o₄ c hcy h1 h2 h3 h4 hc
    have e₁ : poll_repo σ s o₁ c = pollClosedPhase s [] c := poll_repo_304 σ s o₁ c h1
    have hc₁ : (pollClosedPhase s [] c).1.cycle = 1 := by
      rw [pollClosedPhase_cycle, hcy]
    have hl₁ : (pollClosedPhase s [] c).1.last_seen_merged_at =
        setWatermark s.last_seen_merged_at
          (advanceWatermark s.last_seen_merged_at
            (newMerges s.last_seen_merged_at c.payload)) := by
      rw [pollClosedPhase_last, if_pos ⟨hcy, hc⟩]
    have e₂ : poll_repo σ (pollClosedPhase s [] c).1 o₂ c =
        pollClosedPhase (pollClosedPhase s [] c).1 [] c :=
      poll_repo_304 σ _ o₂ c h2
    have hint₂ : (pollClosedPhase (pollClosedPhase s [] c).1 [] c).2.integrated = [] := by
      rw [pollClosedPhase_integrated, if_neg (by simp [hc₁])]
    have hc₂ : (pollClosedPhase (pollClosedPhase s [] c).1 [] c).1.cycle = 2 := by
      rw [pollClosedPhase_cycle, hc₁]
    have hl₂ : (pollClosedPhase (pollClosedPhase s [] c).1 [] c).1.last_seen_merged_at =
        (pollClosedPhase s [] c).1.last_seen_merged_at := by
      rw [pollClosedPhase_last, if_neg (by simp [hc₁])]
    have e₃ : poll_repo σ (pollClosedPhase (pollClosedPhase s [] c).1 [] c).1 o₃ c =
        pollClosedPhase (pollClosedPhase (pollClosedPhase s [] c).1 [] c).1 [] c :=
      poll_repo_304 σ _ o₃ c h3
    have hint₃ :
        (pollClosedPhase (pollClosedPhase (pollClosedPhase s [] c).1 [] c).1 [] c).2.integrated
          = [] := by
      rw [pollClosedPhase_integrated, if_neg (by simp [hc₂])]
    have hc₃ :
        (pollClosedPhase (pollClosedPhase (pollClosedPhase s [] c).1 [] c).1 [] c).1.cycle
          = 0 := by
      rw [pollClosedPhase_cycle, hc₂]
    have hl₃ :
        (pollClosedPhase (pollClosedPhase (pollClosedPhase s [] c).1 [] c).1 [] c).1.last_seen_merged_at
          = (pollClosedPhase s [] c).1.last_seen_merged_at := by
      rw [pollClosedPhase_last, if_neg (by simp [hc₂]), hl₂]
    have e₄ : poll_repo σ
        (pollClosedPhase (pollClosedPhase (pollClosedPhase s [] c).1 [] c).1 [] c).1 o₄ c =
        pollClosedPhase
          (pollClosedPhase (pollClosedPhase (pollClosedPhase s [] c).1 [] c).1 [] c).1 [] c :=
      poll_repo_304 σ _ o₄ c h4
    have hint₄ :
        (pollClosedPhase
          (pollClosedPhase (pollClosedPhase (pollClosedPhase s [] c).1 [] c).1 [] c).1
          [] c).2.integrated = [] := by
      rw [pollClosedPhase_integrated, if_pos ⟨hc₃, hc⟩, hl₃, hl₁]
      exact newMerges_idem s.last_seen_merged_at c.payload
    refine ⟨?_, ?_, ?_⟩
    · rw [e₁, e₂, hint₂]
    · rw [e₁, e₂, e₃, hint₃]
    · rw [e₁, e₂, e₃, e₄, hint₄]

/-- Witness state for the C2 re-poll scenario: one recorded head, cycle 1. -/
def c2wS : PollState := ⟨["s0"], none, none, none, 1⟩

def c2wO : RemoteResp OpenPR := ⟨200, none, [⟨"r1", "s1"⟩]⟩

def c2wC0 : RemoteResp ClosedPR := ⟨304, none, []⟩

/-- Witness state for the C2 merge scenario: stored watermark, cycle 0. -/
def c2wSB : PollState := ⟨[], none, none, some "2020-01-01", 0⟩

def c2wO304 : RemoteResp OpenPR := ⟨304, none, []⟩

def c2wC : RemoteResp ClosedPR :=
  ⟨200, none, [⟨some "2020-02-01"⟩, ⟨some "2019-01-01"⟩, ⟨none⟩]⟩

/-- Witness for C2: re-polling one unchanged open payload reviews nothing
the second time; a closed payload with exactly one merge stamp above the
stored watermark integrates exactly once; and the following three polls with
the same closed payload (the fourth fetching the closed collection again)
integrate nothing. -/
theorem c2_poll_repo_witness :
    (c2wS.reviewed_heads ++ (poll_repo revOrder c2wS c2wO c2wC0).2.reviewed).dedup.length ≤ 200 ∧
    (poll_repo revOrder (poll_repo revOrder c2wS c2wO c2wC0).1 c2wO c2wC0).2.reviewed = [] ∧
    c2wC.payload.countP (fun pr => decide (newAbove "2020-01-01" pr)) = 1 ∧
    (poll_repo revOrder c2wSB c2wO304 c2wC).2.integrated.length = 1 ∧
    (poll_repo revOrder (poll_repo revOrder c2wSB c2wO304 c2wC).1 c2wO304 c2wC).2.integrated = [] ∧
    (poll_repo revOrder (poll_repo revOrder (poll_repo revOrder
      (poll_repo revOrder c2wSB c2wO304 c2wC).1 c2wO304 c2wC).1 c2wO304 c2wC).1
      c2wO304 c2wC).2.integrated = [] := by
  have hmain := c2_poll_repo_idempotent revOrder revOrder_perm_dedup
  refine ⟨by decide,
    hmain.1 c2wS c2wO c2wC0 c2wC0 (by decide) (by decide),
    by decide, ?_, ?_, ?_⟩
  · rw [hmain.2.1 c2wSB c2wO304 c2wC "2020-01-01" rfl rfl rfl rfl (by decide)]
    decide
  · exact (hmain.2.2 c2wSB c2wO304 c2wO304 c2wO304 c2wO304 c2wC rfl rfl rfl rfl rfl rfl).1
  · exact (hmain.2.2 c2wSB c2wO304 c2wO304 c2wO304 c2wO304 c2wC rfl rfl rfl rfl rfl rfl).2.2

/-- The C2 counterexample state: the reviewed-heads set already at its cap. -/
def c2xState : PollState := ⟨heads200, none, none, none, 1⟩

def c2xOpen : RemoteResp OpenPR := ⟨200, none, [⟨"refX", "sNew"⟩]⟩

def c2xClosed : RemoteResp ClosedPR := ⟨304, none, []⟩

set_option maxRecDepth 40000 in
set_option maxHeartbeats 1600000 in
/-- Counterexample for C2 as stated: with the reviewed-heads set already
holding 200 identifiers and an admissible hash-set iteration order that
enumerates the newest head first, polling the same single-entry open payload
twice dispatches the same head's review twice — the newly recorded head is
evicted by the cap before the second poll, so re-polling unchanged remote
state duplicates a review dispatch. -/
theorem c2_poll_repo_counterexample :
    (poll_repo revOrder c2xState c2xOpen c2xClosed).2.reviewed = ["sNew"] ∧
    (poll_repo revOrder (poll_repo revOrder c2xState c2xOpen c2xClosed).1
      c2xOpen c2xClosed).2.reviewed = ["sNew"] :=
  ⟨by decide, by decide⟩

/-! Claim C1: `list_eligible`. -/

/-- The dependency entries as the C1 claim reads them: the list when
`depends_on` holds one, nothing otherwise. -/
def c1Deps (t : TaskRecord) : List String :=
  match pyGetD t.depends_on .vNone with
  | .vList l => l
  | _ => []

/-- The eligibility predicate exactly as the C1 claim states it: queued
status (case-insensitively), no open title containing the task id, no
`feature/<id>`-or-`feature/<id>-` branch, and every dependency id resolving
to a known record with a completed status. -/
def c1ClaimEligible (tasks : List TaskRecord) (titles branches : List String)
    (t : TaskRecord) : Prop :=
  statusLower t = "queued" ∧
  (∀ title ∈ titles, pyInStr (taskId t) title = false) ∧
  (∀ b ∈ branches, b ≠ "feature/" ++ taskId t ∧
    ("feature/" ++ taskId t ++ "-").data.isPrefixOf b.data = false) ∧
  (∀ dep ∈ c1Deps t, ∃ u ∈ tasks, taskId u = pyTrim dep ∧ statusLower u ∈ doneStatuses)

instance c1ClaimEligibleDec (tasks : List TaskRecord) (titles branches : List String)
    (t : TaskRecord) : Decidable (c1ClaimEligible tasks titles branches t) := by
  unfold c1ClaimEligible
  infer_instance

/-- A queued record with no id at all. -/
def tEmptyId : TaskRecord := ⟨none, none, some (.vStr "queued"), none, none, none⟩

/-- A queued record whose dependency list holds one blank entry. -/
def tBlankDep : TaskRecord :=
  ⟨some (.vStr "T1"), none, some (.vStr "queued"), none, some (.vList [""]), none⟩

/-- Counterexample for C1 as stated: with no open titles and no branches,
the record without an id satisfies every condition the claim lists yet is
not returned, and the record with a blank dependency entry fails the claim's
resolve-every-dependency condition yet is returned (the code skips blank
dependency ids and separately requires a nonempty task id). -/
theorem c1_list_eligible_counterexample :
    list_eligible [tEmptyId, tBlankDep] [] [] = [{ tBlankDep with order := some .vNone }] ∧
    c1ClaimEligible [tEmptyId, tBlankDep] [] [] tEmptyId ∧
    ¬ c1ClaimEligible [tEmptyId, tBlankDep] [] [] tBlankDep ∧
    tEmptyId ∉ list_eligible [tEmptyId, tBlankDep] [] [] := by
  refine ⟨by decide, by decide, by decide, by decide⟩

/-- The claim's eligibility predicate amended to what the code enforces:
additionally the stripped id must be nonempty, only dependency entries that
are nonblank after stripping must resolve, and resolution is through the
id-keyed lookup (the last record holding the id). -/
def eligibleSpec (tasks : List TaskRecord) (titles branches : List String)
    (t : TaskRecord) : Prop :=
  statusLower t = "queued" ∧
  taskId t ≠ "" ∧
  (∀ title ∈ titles, pyInStr (taskId t) title = false) ∧
  (∀ b ∈ branches, b ≠ "feature/" ++ taskId t ∧
    ("feature/" ++ taskId t ++ "-").data.isPrefixOf b.data = false) ∧
  (∀ dep ∈ c1Deps t, pyTrim dep ≠ "" →
    ∃ u, lookupTask tasks (pyTrim dep) = some u ∧ statusLower u ∈ doneStatuses)

/-- The dependency loop agrees with the amended per-dependency condition. -/
theorem deps_satisfied_iff (tasks : List TaskRecord) (t : TaskRecord) :
    deps_satisfied tasks t = true ↔
      ∀ dep ∈ c1Deps t, pyTrim dep ≠ "" →
        ∃ u, lookupTask tasks (pyTrim dep) = some u ∧ statusLower u ∈ doneStatuses := by
  unfold deps_satisfied depEntries c1Deps
  cases hdep : pyGetD t.depends_on .vNone with
  | vList l =>
    rw [List.all_eq_true]
    constructor
    · intro h dep hmem hne
      have := h dep hmem
      rw [if_neg (by simpa using hne)] at this
      cases hlk : lookupTask tasks (pyTrim dep) with
      | none => rw [hlk] at this; exact absurd this (by simp)
      | some u =>
        rw [hlk] at this
        exact ⟨u, rfl, by simpa [List.contains, List.elem_iff] using this⟩
    · intro h dep hmem
      by_cases hne : pyTrim dep = ""
      · simp [hne]
      · rw [if_neg (by simpa using hne)]
        obtain ⟨u, hu, hmemu⟩ := h dep hmem hne
        rw [hu]
        simpa [List.contains, List.elem_iff] using hmemu
  | vNone => simp [pyTruthy]
  | vStr s => by_cases hs : s = "" <;> simp [pyTruthy, hs]
  | vInt n => by_cases hn : n = 0 <;> simp [pyTruthy, hn]

/-- The per-record guard chain of `list_eligible` agrees with the amended
eligibility predicate. -/
theorem eligPred_iff (tasks : List TaskRecord) (titles branches : List String)
    (t : TaskRecord) :
    eligPred tasks titles branches t = true ↔ eligibleSpec tasks titles branches t := by
  unfold eligPred eligibleSpec
  split_ifs with h1 h2 h3 h4
  · have hne : statusLower t ≠ "queued" := by simpa using h1
    simp [hne]
  · have hid : taskId t = "" := by simpa using h2
    simp [hid]
  · rw [List.any_eq_true] at h3
    obtain ⟨title, hmem, htrue⟩ := h3
    simp only [Bool.false_eq_true, false_iff]
    rintro ⟨-, -, hT, -, -⟩
    simp [hT title hmem] at htrue
  · rw [List.any_eq_true] at h4
    obtain ⟨b, hmem, hg⟩ := h4
    simp only [Bool.false_eq_true, false_iff]
    rintro ⟨-, -, -, hB, -⟩
    obtain ⟨hbne, hbpf⟩ := hB b hmem
    rcases Bool.or_eq_true_iff.mp hg with hg | hg
    · exact hbne (by simpa using hg)
    · rw [hbpf] at hg
      exact Bool.false_ne_true hg
  · rw [deps_satisfied_iff]
    constructor
    · intro hd
      refine ⟨by simpa using h1, by simpa using h2, ?_, ?_, hd⟩
      · intro title hmem
        have hfalse : titles.any (fun title => pyInStr (taskId t) title) = false :=
          Bool.eq_false_iff.mpr h3
        rw [List.any_eq_false] at hfalse
        exact Bool.eq_false_iff.mpr (hfalse title hmem)
      · intro b hmem
        have hfalse : branches.any (fun b =>
            b == "feature/" ++ taskId t ||
            ("feature/" ++ taskId t ++ "-").data.isPrefixOf b.data) = false :=
          Bool.eq_false_iff.mpr h4
        rw [List.any_eq_false] at hfalse
        have hb : (b == "feature/" ++ taskId t ||
            ("feature/" ++ taskId t ++ "-").data.isPrefixOf b.data) = false :=
          Bool.eq_false_iff.mpr (hfalse b hmem)
        rw [Bool.or_eq_false_iff] at hb
        exact ⟨by simpa using hb.1, hb.2⟩
    · rintro ⟨-, -, -, -, hd⟩
      exact hd

/-- Claim C1 (amended): `list_eligible` returns exactly the records (with
their `order` field normalised) satisfying: status `"queued"`
case-insensitively; nonempty stripped id; no open title containing the id;
no branch equal to `feature/<id>` or starting with `feature/<id>-`; and
every dependency entry that is nonblank after stripping resolving through
the id-keyed lookup (the last record holding that id) to a record whose
status is case-insensitively one of done, merged, completed, closed — an
unknown nonblank dependency id makes the task ineligible, a blank entry is
ignored, and an empty `depends_on` is trivially satisfied. -/
theorem c1_list_eligible_amended (tasks : List TaskRecord)
    (titles branches : List String) (t : TaskRecord) :
    t ∈ list_eligible tasks titles branches ↔
      ∃ t₀ ∈ tasks, normalizeOrder t₀ = t ∧ eligibleSpec tasks titles branches t₀ := by
  unfold list_eligible
  rw [List.mem_map]
  constructor
  · rintro ⟨t₀, ht₀, rfl⟩
    rw [List.mem_filter] at ht₀
    exact ⟨t₀, ht₀.1, rfl, (eligPred_iff tasks titles branches t₀).mp ht₀.2⟩
  · rintro ⟨t₀, hmem, heq, hspec⟩
    exact ⟨t₀, List.mem_filter.mpr ⟨hmem, (eligPred_iff _ _ _ _).mpr hspec⟩, heq⟩

/-- A completed record for the C1 witness scenario. -/
def tDoneW : TaskRecord :=
  ⟨some (.vStr "T-0001"), none, some (.vStr "Done"), none, none, none⟩

/-- A queued record depending on the completed one, with a coercible
string-valued order field and a mixed-case status. -/
def tQueuedW : TaskRecord :=
  ⟨some (.vStr "T-0002"), none, some (.vStr "Queued"), none,
    some (.vList ["T-0001"]), some (.vStr "5")⟩

/-- Witness for C1 at a concrete scenario: a queued task whose dependency is
done is returned (order-normalised) despite an unrelated open title and an
unrelated existing branch. -/
theorem c1_list_eligible_witness :
    normalizeOrder tQueuedW ∈
      list_eligible [tDoneW, tQueuedW] ["Fix T-0009"] ["feature/T-0001-x"] := by
  refine (c1_list_eligible_amended _ _ _ _).mpr ⟨tQueuedW, by decide, rfl, ?_⟩
  refine ⟨by decide, by decide, by decide, by decide, ?_⟩
  intro dep hdep hne
  have hdl : c1Deps tQueuedW = ["T-0001"] := by decide
  rw [hdl] at hdep
  have hd : dep = "T-0001" := by simpa using hdep
  subst hd
  exact ⟨tDoneW, by decide, by decide⟩
theorem c9_omitted_status_witness :
    ([("id", Value.vStr "T-0001"), ("title", Value.vStr "Demo")].lookup "status" = none) ∧
    (parse_task_file [("id", Value.vStr "T-0001"), ("title", Value.vStr "Demo")]).status =
      some (.vStr "queued") ∧
    list_eligible [parse_task_file [("id", Value.vStr "T-0001"), ("title", Value.vStr "Demo")]] [] [] =
      [parse_task_file [("id", Value.vStr "T-0001"), ("title", Value.vStr "Demo")]] :=
  ⟨by decide,
   (c9_omitted_status_defaults_queued _ (by decide) (by decide) (by decide) (by decide)).1,
   (c9_omitted_status_defaults_queued _ (by decide) (by decide) (by decide)
      (by decide)).2.2.2.2.2 (by decide)⟩

end Orchestrator
